import Mathlib

/-
Verification development for the NSA workflow service (Go sources under
internal/ and the workflow action file).  Go maps holding JSON-like values
are modelled as association lists over an inductive value type; machine
integers that the claims quantify over are modelled as Nat (the claims
concern non-negative counts and durations).  I/O results (database pools,
bus connections, JSON decoding) are passed in as explicit parameters.
-/

/-- JSON-like dynamic value, modelling Go interface{} contents produced by
encoding/json (numbers are modelled as Int; floating point is not
claim-relevant). -/
inductive Val where
  | vnull : Val
  | vbool : Bool → Val
  | vint : Int → Val
  | str : String → Val
  | arr : List Val → Val
  | obj : List (String × Val) → Val

/-- First-match lookup in an association list, modelling Go map indexing. -/
def lookupA {α : Type} : List (String × α) → String → Option α
  | [], _ => none
  | (k, v) :: rest, key => if k = key then some v else lookupA rest key

/-- Map assignment m[k] = v: replace in place if present, else append. -/
def insertA {α : Type} : List (String × α) → String → α → List (String × α)
  | [], key, v => [(key, v)]
  | kv :: rest, key, v =>
      if kv.1 = key then (key, v) :: rest else kv :: insertA rest key v

/-- Map deletion delete(m, k). -/
def eraseA {α : Type} (l : List (String × α)) (key : String) : List (String × α) :=
  l.filter (fun kv => !(kv.1 == key))

/-- models.NSQMessage (models package).  Timestamp is wall-clock time,
outside the model. -/
structure NSQMessageM where
  topic : String
  channel : String
  body : String
  attempts : Nat
  msgId : String
  data : List (String × Val)

/-- A value stored in a map[string]interface{} variable slot: either a
JSON-like value or a pointer to the per-message NSQMessage (the executor
stores the message itself under vars["nsq_message"]). -/
inductive VarVal where
  | val : Val → VarVal
  | message : NSQMessageM → VarVal

/-- models.RetryConfig. -/
structure MRetryConfig where
  enabled : Bool
  maxTimes : Nat
  interval : Nat

/-- models.TaskConfig. -/
structure TaskConfigM where
  taskId : String
  name : String
  actionName : String
  dependOn : List String
  params : List (String × Val)
  retry : MRetryConfig
  timeout : Nat

/-- models.DAGVar. -/
structure DAGVarM where
  name : String
  description : String
  defaultValue : Val
  varType : String

/-- models.DAGConfig. -/
structure DAGConfigM where
  dagId : String
  name : String
  vars : List DAGVarM
  tasks : List TaskConfigM

/-- models.WorkflowConfig (catalog fields the core reads). -/
structure WorkflowConfigM where
  workflowId : String
  name : String
  topic : String
  channel : String
  enabled : Bool
  dag : DAGConfigM

/-- models.DataSource (connection coordinates feed only the DSN and the
pool, which are modelled by the abstract pool parameter of add). -/
structure DataSourceM where
  name : String
  dsType : String
  host : String
  port : Nat
  database : String
  username : String
  password : String
  ssl : Bool
  maxIdle : Nat
  maxOpen : Nat
  maxLifetime : Nat

/-- workflow.RetryConfig (executor package): converted form of
models.RetryConfig with the interval in seconds. -/
structure TaskRetryConfig where
  maxTimes : Nat
  interval : Nat

/-- workflow.Task (executor package). -/
structure TaskM where
  taskId : String
  actionName : String
  dependOn : List String
  params : List (String × Val)
  timeout : Nat
  retry : Option TaskRetryConfig

/-- workflow.WorkflowInstance.  StartTime/EndTime are wall-clock times,
outside the model. -/
structure WorkflowInstanceM where
  instId : String
  workflowId : String
  status : String
  vars : List (String × VarVal)
  results : List (String × Val)

/-- workflow.ActionContext: the shared per-executor view handed to every
built-in action at registration time. -/
structure ActionContextM where
  nsqMessage : Option NSQMessageM
  workflowVars : List (String × VarVal)
  previousOutput : List (String × Val)

/-- The ActionContext built in Executor.registerDefaultActions
(executor.go lines 74-79): empty vars and previous output, no message. -/
def initialActionContext : ActionContextM :=
  { nsqMessage := none, workflowVars := [], previousOutput := [] }

/-- An action behaviour: what Action.Run computes from the shared
ActionContext, the task params and the attempt number.  none models a
returned error, some v a success that set the TaskContext output to v. -/
def ActionBehavior : Type :=
  ActionContextM → List (String × Val) → Nat → Option Val

/-- Trace of one task-level run: how many times Action.Run was invoked,
the seconds slept between consecutive attempts (in order), and the final
result (none = the task failed). -/
structure RetryTrace where
  invocations : Nat
  sleeps : List Nat
  result : Option Val

/-- The retry loop body of Executor.executeTask (executor.go lines
198-210): for i := 0; i <= MaxTimes; i++ run the action, stop at the
first success, and when i < MaxTimes sleep Interval before the next
attempt.  i is the current index and fuel the number of indices left
after it. -/
def retryGo (run : Nat → Option Val) (interval : Nat) (i : Nat) : Nat → RetryTrace
  | 0 =>
      { invocations := 1, sleeps := [], result := run i }
  | fuel + 1 =>
      match run i with
      | some v => { invocations := 1, sleeps := [], result := some v }
      | none =>
          let t := retryGo run interval (i + 1) fuel
          { invocations := t.invocations + 1,
            sleeps := interval :: t.sleeps,
            result := t.result }

/-- Executor.executeTask attempt dispatch: the retry path when
task.Retry != nil, the single plain run otherwise. -/
def runTaskWithRetry (run : Nat → Option Val) : Option TaskRetryConfig → RetryTrace
  | none => { invocations := 1, sleeps := [], result := run 0 }
  | some rc => retryGo run rc.interval 0 rc.maxTimes

/-- Executor.buildTasks conversion of one models.TaskConfig
(executor.go lines 124-151): Retry carried over iff enabled (Interval
converted from seconds to a duration, kept in seconds here), Timeout
carried over iff positive. -/
def buildTask (tc : TaskConfigM) : TaskM :=
  { taskId := tc.taskId,
    actionName := tc.actionName,
    dependOn := tc.dependOn,
    params := tc.params,
    retry :=
      if tc.retry.enabled then
        some { maxTimes := tc.retry.maxTimes, interval := tc.retry.interval }
      else none,
    timeout := if tc.timeout > 0 then tc.timeout else 0 }

/-- Executor.buildTasks over the whole DAG, in catalog order. -/
def buildTasks (cfg : WorkflowConfigM) : List TaskM :=
  cfg.dag.tasks.map buildTask

/-- Executor.executeTask (executor.go lines 183-225): resolve the action
in the registry, run it under the retry policy, and on success store the
TaskContext output under instance.Results[task.ID].  The shared
ActionContext is read by the behaviour but never written by the executor
(no statement in executor.go assigns to its fields after construction). -/
def executeTask (registry : List (String × ActionBehavior)) (actx : ActionContextM)
    (task : TaskM) (inst : WorkflowInstanceM) : Except String WorkflowInstanceM :=
  match lookupA registry task.actionName with
  | none => Except.error ("action " ++ task.actionName ++ " not found")
  | some behavior =>
      let trace := runTaskWithRetry (fun i => behavior actx task.params i) task.retry
      match trace.result with
      | none => Except.error ("task " ++ task.taskId ++ " execution failed")
      | some out =>
          Except.ok { inst with results := insertA inst.results task.taskId out }

/-- Executor.executeTasks (executor.go lines 154-180): sequential run in
catalog order; the first failing task marks the instance failed and stops;
otherwise the instance completes.  The nsqMessage parameter is carried as
in the source (which never reads it inside executeTask). -/
def executeTasks (registry : List (String × ActionBehavior)) (actx : ActionContextM)
    (inst : WorkflowInstanceM) (tasks : List TaskM) (nsqMessage : NSQMessageM) :
    WorkflowInstanceM :=
  match tasks with
  | [] => { inst with status := "completed" }
  | task :: rest =>
      match executeTask registry actx task inst with
      | Except.error _ => { inst with status := "failed" }
      | Except.ok inst2 => executeTasks registry actx inst2 rest nsqMessage

/-- Executor.buildWorkflowVars (executor.go lines 228-242): the message is
bound under "nsq_message" first, then each dag var default is written on
top of the map. -/
def buildWorkflowVars (cfg : WorkflowConfigM) (nsqMessage : Option NSQMessageM) :
    List (String × VarVal) :=
  let vars : List (String × VarVal) :=
    match nsqMessage with
    | some m => insertA [] "nsq_message" (VarVal.message m)
    | none => []
  cfg.dag.vars.foldl (fun acc v => insertA acc v.name (VarVal.val v.defaultValue)) vars

/-- Default value of the last dag var carrying a given name (the binding
that survives sequential map writes). -/
def lastDefault : List DAGVarM → String → Option Val
  | [], _ => none
  | v :: vs, n =>
      match lastDefault vs n with
      | some d => some d
      | none => if v.name = n then some v.defaultValue else none

/-- mongo ReplaceOne on the workflow_instances collection with filter
{id: instId}: replaces the first matching document.  Matching zero
documents is a successful result (MatchedCount 0), not a driver error. -/
def replaceOne (coll : List WorkflowInstanceM) (instId : String)
    (doc : WorkflowInstanceM) : List WorkflowInstanceM :=
  match coll with
  | [] => []
  | d :: ds => if d.instId = instId then doc :: ds else d :: replaceOne ds instId doc

/-- mongo InsertOne. -/
def insertOne (coll : List WorkflowInstanceM) (doc : WorkflowInstanceM) :
    List WorkflowInstanceM :=
  coll ++ [doc]

/-- Executor.saveWorkflowInstance (executor.go lines 245-258): ReplaceOne
with filter {id: instance.ID}; the InsertOne fallback runs only when
ReplaceOne returns a driver error, and a zero-match replace is not an
error, so absent driver faults the fallback never executes. -/
def saveWorkflowInstance (coll : List WorkflowInstanceM) (inst : WorkflowInstanceM) :
    List WorkflowInstanceM :=
  replaceOne coll inst.instId inst

/-- Executor.Execute (executor.go lines 92-121): build the instance with
status running, persist it, build the task list, then spawn executeTasks
on a detached goroutine and return nil immediately.  The pair is (value
returned to the caller, instance state after the detached run ends);
instance-id generation is passed in. -/
def ExecuteM (registry : List (String × ActionBehavior)) (instanceId : String)
    (cfg : WorkflowConfigM) (nsqMessage : NSQMessageM) :
    Option String × WorkflowInstanceM :=
  let inst : WorkflowInstanceM :=
    { instId := instanceId,
      workflowId := cfg.workflowId,
      status := "running",
      vars := buildWorkflowVars cfg (some nsqMessage),
      results := [] }
  let tasks := buildTasks cfg
  (none, executeTasks registry initialActionContext inst tasks nsqMessage)

/-- Consumer-map key, fmt.Sprintf("%s:%s", topic, channel)
(manager.go lines 68, 123, 264, 286). -/
def consumerKey (topic channel : String) : String :=
  topic ++ ":" ++ channel

/-- Manager.AddConsumer (manager.go lines 64-116): refuse when the key is
present, otherwise build the consumer, register the handler, connect and
store it.  Consumer construction and the lookupd connection are bus I/O;
the model assumes they succeed and represents the new consumer handle by
the opaque token tok. -/
def addConsumerM (m : List (String × Nat)) (topic channel : String) (tok : Nat) :
    List (String × Nat) × Option String :=
  let key := consumerKey topic channel
  match lookupA m key with
  | some _ =>
      (m, some ("consumer for topic " ++ topic ++ " channel " ++ channel ++
        " already exists"))
  | none => (m ++ [(key, tok)], none)

/-- Manager.RemoveConsumer (manager.go lines 119-138): a missing key is an
error and the map is returned unchanged; otherwise the consumer is stopped
(bus I/O), waited for, and its entry deleted. -/
def removeConsumerM (m : List (String × Nat)) (topic channel : String) :
    List (String × Nat) × Option String :=
  let key := consumerKey topic channel
  match lookupA m key with
  | none =>
      (m, some ("consumer for topic " ++ topic ++ " channel " ++ channel ++
        " not found"))
  | some _ => (eraseA m key, none)

/-- The required key set computed by Manager.ReloadConsumers
(manager.go lines 261-267): keys of the enabled workflow configs. -/
def requiredConsumerKeys (cfgs : List WorkflowConfigM) : List String :=
  cfgs.filterMap
    (fun c => if c.enabled then some (consumerKey c.topic c.channel) else none)

/-- One step of the add loop of Manager.ReloadConsumers (manager.go lines
284-296): for an enabled config whose key is not yet present, call
AddConsumer; otherwise leave the map alone. -/
def reloadAddStep (tok : Nat) (acc : List (String × Nat)) (c : WorkflowConfigM) :
    List (String × Nat) :=
  if c.enabled then
    match lookupA acc (consumerKey c.topic c.channel) with
    | some _ => acc
    | none => (addConsumerM acc c.topic c.channel tok).1
  else acc

/-- Manager.ReloadConsumers (manager.go lines 256-300): drop every current
consumer whose key is not required, then walk the configs and add a
consumer (via AddConsumer) for every enabled key not already present.
New consumer handles receive the opaque token tok. -/
def reloadConsumers (m : List (String × Nat)) (cfgs : List WorkflowConfigM)
    (tok : Nat) : List (String × Nat) :=
  let required := requiredConsumerKeys cfgs
  let kept := m.filter (fun kv => required.contains kv.1)
  cfgs.foldl (reloadAddStep tok) kept

/-- MessageHandler.parseMessage (manager.go lines 208-233): build the
message record with an empty data map; when the body is non-empty try the
JSON decode (passed in as the decode parameter: none models an
encoding/json failure, some d a decoded object) and on failure store the
raw body text under "raw".  The function never returns an error. -/
def parseMessage (decode : String → Option (List (String × Val)))
    (topic channel body : String) (attempts : Nat) (msgId : String) : NSQMessageM :=
  let msg : NSQMessageM :=
    { topic := topic, channel := channel, body := body,
      attempts := attempts, msgId := msgId, data := [] }
  if body.length > 0 then
    match decode body with
    | none => { msg with data := [("raw", Val.str body)] }
    | some d => { msg with data := d }
  else msg

/-- Outcome of one bus delivery: what HandleMessage returned to the bus
(none = nil, a finished message) and the eventual state of the detached
workflow run when one was spawned. -/
structure HandleOutcome where
  busError : Option String
  finalInstance : Option WorkflowInstanceM

/-- MessageHandler.HandleMessage (manager.go lines 175-206): parse the
message (never fails), look the workflow up in the catalog (cfgLookup is
the catalog read result), then call Executor.Execute, returning its error
to the bus.  Execute returns nil after spawning the detached run, so a
spawned run always yields busError = none. -/
def handleMessage (registry : List (String × ActionBehavior)) (instanceId : String)
    (cfgLookup : Option WorkflowConfigM)
    (decode : String → Option (List (String × Val)))
    (topic channel body : String) (attempts : Nat) (msgId : String) : HandleOutcome :=
  let msg := parseMessage decode topic channel body attempts msgId
  match cfgLookup with
  | none => { busError := some "failed to get workflow config", finalInstance := none }
  | some cfg =>
      let r := ExecuteM registry instanceId cfg msg
      match r.1 with
      | some e => { busError := some e, finalInstance := none }
      | none => { busError := none, finalInstance := some r.2 }

/-- datasource.Manager state: the three maps sqlDBs, mongoDBs and
dataSources (manager.go lines 20-25).  Pools are opaque tokens. -/
structure DSManagerM where
  sqlDBs : List (String × Nat)
  mongoDBs : List (String × Nat)
  dataSources : List (String × DataSourceM)

/-- Manager.createSQLConnection (datasource/manager.go lines 130-172): the
DSN build, sql.Open, pool limits and Ping are connection I/O, modelled by
the pool parameter: none means open or probe failed (the pool is closed
and not registered), some p a live pool registered under the name. -/
def createSQLConnection (m : DSManagerM) (ds : DataSourceM) (pool : Option Nat) :
    DSManagerM × Option String :=
  match pool with
  | none => (m, some "connection probe failed")
  | some p => ({ m with sqlDBs := insertA m.sqlDBs ds.name p }, none)

/-- Manager.createMongoConnection (datasource/manager.go lines 175-193),
modelled like createSQLConnection. -/
def createMongoConnection (m : DSManagerM) (ds : DataSourceM) (pool : Option Nat) :
    DSManagerM × Option String :=
  match pool with
  | none => (m, some "connection probe failed")
  | some p => ({ m with mongoDBs := insertA m.mongoDBs ds.name p }, none)

/-- Manager.AddDataSource (datasource/manager.go lines 37-53): the config
entry is stored first, then the connection is created per type; an
unsupported type is an error (note the config entry remains). -/
def addDataSource (m : DSManagerM) (ds : DataSourceM) (pool : Option Nat) :
    DSManagerM × Option String :=
  let m1 : DSManagerM := { m with dataSources := insertA m.dataSources ds.name ds }
  if ds.dsType = "mysql" ∨ ds.dsType = "postgresql" ∨ ds.dsType = "sqlserver" ∨
      ds.dsType = "oracle" then
    createSQLConnection m1 ds pool
  else if ds.dsType = "mongodb" then
    createMongoConnection m1 ds pool
  else
    (m1, some ("unsupported database type: " ++ ds.dsType))

/-- Manager.RemoveDataSource (datasource/manager.go lines 80-99): close
and delete the SQL pool if present, close and delete the Mongo client if
present, delete the config entry; always returns nil. -/
def removeDataSource (m : DSManagerM) (name : String) : DSManagerM × Option String :=
  ({ sqlDBs := eraseA m.sqlDBs name,
     mongoDBs := eraseA m.mongoDBs name,
     dataSources := eraseA m.dataSources name }, none)

/-- Character-list prefix test (strings.HasPrefix at the scan position). -/
def leadsWith : List Char → List Char → Bool
  | [], _ => true
  | _ :: _, [] => false
  | p :: ps, c :: cs => p == c && leadsWith ps cs

/-- strings.Contains: does pat occur as a contiguous substring of s. -/
def containsSubL (pat : List Char) : List Char → Bool
  | [] => pat.isEmpty
  | c :: rest => leadsWith pat (c :: rest) || containsSubL pat rest

/-- strings.ReplaceAll scan: at each position, if the (non-empty) pattern
starts here emit the replacement and skip past the pattern, else keep the
character.  fuel bounds the scan length (the wrapper passes s.length). -/
def replaceAllGo (pat rep : List Char) : Nat → List Char → List Char
  | 0, s => s
  | _ + 1, [] => []
  | fuel + 1, c :: rest =>
      if leadsWith pat (c :: rest) = true ∧ pat ≠ [] then
        rep ++ replaceAllGo pat rep fuel (List.drop pat.length (c :: rest))
      else
        c :: replaceAllGo pat rep fuel rest

/-- strings.ReplaceAll on character lists. -/
def replaceAllL (pat rep s : List Char) : List Char :=
  replaceAllGo pat rep s.length s

/-- The same scan, returning the pieces between the non-overlapping
leftmost occurrences of the pattern instead of rewriting them. -/
def splitOnGo (pat : List Char) : Nat → List Char → List (List Char)
  | 0, s => [s]
  | _ + 1, [] => [[]]
  | fuel + 1, c :: rest =>
      if leadsWith pat (c :: rest) = true ∧ pat ≠ [] then
        [] :: splitOnGo pat fuel (List.drop pat.length (c :: rest))
      else
        match splitOnGo pat fuel rest with
        | [] => [[c]]
        | p :: ps => (c :: p) :: ps

/-- Pieces of s between the leftmost non-overlapping occurrences of pat. -/
def splitOnL (pat s : List Char) : List (List Char) :=
  splitOnGo pat s.length s

/-- Join pieces with a separator between consecutive pieces. -/
def joinSep (sep : List Char) : List (List Char) → List Char
  | [] => []
  | [x] => x
  | x :: y :: t => x ++ sep ++ joinSep sep (y :: t)

/-- strings.ReplaceAll on strings (the form the actions call). -/
def replaceAllS (s pat rep : String) : String :=
  String.mk (replaceAllL pat.data rep.data s.data)

/-- strings.Contains on strings. -/
def containsSubS (s pat : String) : Bool :=
  containsSubL pat.data s.data

/-- The placeholder fmt.Sprintf("\x7b\x7bnsq.%s\x7d\x7d", key). -/
def nsqPlaceholder (key : String) : String :=
  "\x7b\x7bnsq." ++ key ++ "\x7d\x7d"

/-- The placeholder fmt.Sprintf("\x7b\x7b%s\x7d\x7d", key). -/
def varPlaceholder (key : String) : String :=
  "\x7b\x7b" ++ key ++ "\x7d\x7d"

/-- The placeholder fmt.Sprintf("\x7b\x7boutput.%s\x7d\x7d", key). -/
def outPlaceholder (key : String) : String :=
  "\x7b\x7boutput." ++ key ++ "\x7d\x7d"

/-- One pass of the NSQ-data loop of replaceTemplateVars: replace all
occurrences of the placeholder when the bound value is a text scalar,
leave the template unchanged otherwise. -/
def replaceNsqStep (t : String) (kv : String × Val) : String :=
  match kv.2 with
  | Val.str v => replaceAllS t (nsqPlaceholder kv.1) v
  | _ => t

/-- One pass of the workflow-vars loop of replaceTemplateVars. -/
def replaceVarStep (t : String) (kv : String × VarVal) : String :=
  match kv.2 with
  | VarVal.val (Val.str v) => replaceAllS t (varPlaceholder kv.1) v
  | _ => t

/-- One pass of the previous-output loop of replaceTemplateVars. -/
def replaceOutStep (t : String) (kv : String × Val) : String :=
  match kv.2 with
  | Val.str v => replaceAllS t (outPlaceholder kv.1) v
  | _ => t

/-- HTTPClientAction.replaceTemplateVars and the textually identical
DBClientAction.replaceTemplateVars (actions file lines 409-468): walk the
message data, then the workflow vars, then the previous output, replacing
every occurrence of each placeholder whose bound value is a string. -/
def replaceTemplateVars (actx : ActionContextM) (template : String) : String :=
  let t1 :=
    match actx.nsqMessage with
    | none => template
    | some msg => msg.data.foldl replaceNsqStep template
  let t2 := actx.workflowVars.foldl replaceVarStep t1
  actx.previousOutput.foldl replaceOutStep t2

/-- True when the template contains no placeholder bound to a string
value in the given context (the hypothesis of the no-op / idempotence
parts of the template claims). -/
def placeholdersAbsent (actx : ActionContextM) (t : String) : Bool :=
  (match actx.nsqMessage with
   | none => true
   | some msg =>
       msg.data.all (fun kv =>
         match kv.2 with
         | Val.str _ => !(containsSubS t (nsqPlaceholder kv.1))
         | _ => true))
  && actx.workflowVars.all (fun kv =>
       match kv.2 with
       | VarVal.val (Val.str _) => !(containsSubS t (varPlaceholder kv.1))
       | _ => true)
  && actx.previousOutput.all (fun kv =>
       match kv.2 with
       | Val.str _ => !(containsSubS t (outPlaceholder kv.1))
       | _ => true)

/-- Behaviour of an action that always succeeds with a fixed output. -/
def constBehavior (v : Val) : ActionBehavior :=
  fun _ _ _ => some v

/-- Behaviour of an action that always fails (returns an error). -/
def failBehavior : ActionBehavior :=
  fun _ _ _ => none

/-- Behaviour of an action that reports, as its output, the previous-task
output it observes on the shared ActionContext (what the script action's
previous_output global and the \x7b\x7boutput.*\x7d\x7d placeholders
would resolve against). -/
def probeBehavior : ActionBehavior :=
  fun actx _ _ => some (Val.obj actx.previousOutput)

/-- Two-task registry for the output-propagation scenario. -/
def c1Registry : List (String × ActionBehavior) :=
  [("emit", constBehavior (Val.obj [("x", Val.str "6")])), ("probe", probeBehavior)]

/-- First task of the scenario: succeeds with output \x7bx: "6"\x7d. -/
def c1TaskA : TaskM :=
  { taskId := "A", actionName := "emit", dependOn := [], params := [],
    timeout := 0, retry := none }

/-- Second task of the scenario: reports the previous output it sees. -/
def c1TaskB : TaskM :=
  { taskId := "B", actionName := "probe", dependOn := ["A"], params := [],
    timeout := 0, retry := none }

/-- A delivered message for the scenarios. -/
def c1Msg : NSQMessageM :=
  { topic := "t", channel := "c", body := "", attempts := 1, msgId := "m", data := [] }

/-- The running instance the executor builds before the first task. -/
def c1Inst0 : WorkflowInstanceM :=
  { instId := "i", workflowId := "w", status := "running", vars := [], results := [] }

/-- The instance after the detached run of the two-task scenario. -/
def c1Final : WorkflowInstanceM :=
  executeTasks c1Registry initialActionContext c1Inst0 [c1TaskA, c1TaskB] c1Msg

/-- Registry for the retry-exhaustion scenario: one always-failing action. -/
def c6Registry : List (String × ActionBehavior) :=
  [("boom", failBehavior)]

/-- Task config with retry enabled, max_times = 2, interval = 0, naming
the always-failing action (scenario: retry exhaustion). -/
def c6Task : TaskConfigM :=
  { taskId := "t1", name := "task1", actionName := "boom", dependOn := [],
    params := [], retry := { enabled := true, maxTimes := 2, interval := 0 },
    timeout := 0 }

/-- Workflow config with the single retry-exhaustion task. -/
def c6Cfg : WorkflowConfigM :=
  { workflowId := "w", name := "wf", topic := "t", channel := "c", enabled := true,
    dag := { dagId := "d", name := "dag", vars := [], tasks := [c6Task] } }

/-- Outcome of the retry-exhaustion delivery. -/
def c6Outcome : HandleOutcome :=
  handleMessage c6Registry "i" (some c6Cfg) (fun _ => none) "t" "c" "x" 1 "m"

/-- Workflow config whose dag declares a variable itself named
"nsq_message" with default value "x". -/
def c5Cfg : WorkflowConfigM :=
  { workflowId := "w", name := "wf", topic := "t", channel := "c", enabled := true,
    dag :=
      { dagId := "d", name := "dag",
        vars :=
          [{ name := "nsq_message", description := "", defaultValue := Val.str "x",
             varType := "string" }],
        tasks := [] } }

/-- A concrete instance for the persistence scenario. -/
def c2Inst : WorkflowInstanceM :=
  { instId := "i1", workflowId := "w", status := "running", vars := [], results := [] }

/-- A concrete data source named "a". -/
def c9Ds : DataSourceM :=
  { name := "a", dsType := "mysql", host := "h", port := 3306, database := "d",
    username := "u", password := "p", ssl := false, maxIdle := 1, maxOpen := 1,
    maxLifetime := 60 }

/-- A data-source manager that already holds a source named "a". -/
def c9Mgr : DSManagerM :=
  { sqlDBs := [("a", 1)], mongoDBs := [], dataSources := [("a", c9Ds)] }


/-- A delivered message carrying one non-text data value. -/
def c8Msg : NSQMessageM :=
  { topic := "t", channel := "c", body := "", attempts := 1, msgId := "m",
    data := [("k", Val.vint 3)] }

/-- A concrete action context for the template-expansion witness: one
non-text message value and one text workflow variable. -/
def c8Actx : ActionContextM :=
  { nsqMessage := some c8Msg,
    workflowVars := [("v", VarVal.val (Val.str "s"))],
    previousOutput := [("o", Val.str "out")] }


theorem lookupA_insertA {α : Type} (l : List (String × α)) (k n : String) (v : α) :
    lookupA (insertA l k v) n = if k = n then some v else lookupA l n := by
  induction l with
  | nil => simp [insertA, lookupA]
  | cons kv rest ih =>
      by_cases h : kv.1 = k
      · by_cases h2 : k = n
        · simp [insertA, lookupA, h, h2]
        · have h3 : ¬ kv.1 = n := h ▸ h2
          simp [insertA, lookupA, h, h2, h3]
      · by_cases h2 : kv.1 = n
        · have h3 : ¬ k = n := fun e => h (h2.trans e.symm)
          have h4 : ¬ n = k := fun e => h3 e.symm
          simp [insertA, lookupA, h, h2, h3, h4]
        · simp [insertA, lookupA, h, h2, ih]

theorem insertA_of_lookupA_none {α : Type} (l : List (String × α)) (k : String) (v : α)
    (h : lookupA l k = none) : insertA l k v = l ++ [(k, v)] := by
  induction l with
  | nil => simp [insertA]
  | cons kv rest ih =>
      simp only [lookupA] at h
      by_cases hk : kv.1 = k
      · simp [hk] at h
      · simp only [insertA, if_neg hk, List.cons_append, List.cons.injEq, true_and]
        exact ih (by simpa [hk] using h)

theorem eraseA_of_lookupA_none {α : Type} (l : List (String × α)) (k : String)
    (h : lookupA l k = none) : eraseA l k = l := by
  induction l with
  | nil => rfl
  | cons kv rest ih =>
      simp only [lookupA] at h
      by_cases hk : kv.1 = k
      · simp [hk] at h
      · simp only [eraseA, List.filter_cons]
        have : (!(kv.1 == k)) = true := by simp [hk]
        simp only [this, if_pos rfl]
        have := ih (by simpa [hk] using h)
        simpa [eraseA] using this

theorem eraseA_append {α : Type} (l1 l2 : List (String × α)) (k : String) :
    eraseA (l1 ++ l2) k = eraseA l1 k ++ eraseA l2 k := by
  simp [eraseA, List.filter_append]

theorem eraseA_singleton_self {α : Type} (k : String) (v : α) :
    eraseA [(k, v)] k = [] := by
  simp [eraseA]

theorem lookupA_append_left {α : Type} (l1 l2 : List (String × α)) (k : String) (v : α)
    (h : lookupA l1 k = some v) : lookupA (l1 ++ l2) k = some v := by
  induction l1 with
  | nil => simp [lookupA] at h
  | cons kv rest ih =>
      simp only [lookupA] at h ⊢
      by_cases hk : kv.1 = k
      · simpa [hk] using h
      · simpa [hk] using ih (by simpa [hk] using h)

theorem lookupA_append_right {α : Type} (l1 l2 : List (String × α)) (k : String)
    (h : lookupA l1 k = none) : lookupA (l1 ++ l2) k = lookupA l2 k := by
  induction l1 with
  | nil => simp
  | cons kv rest ih =>
      simp only [lookupA] at h ⊢
      by_cases hk : kv.1 = k
      · simp [hk] at h
      · simpa [hk] using ih (by simpa [hk] using h)

/-- C10: removing a consumer for a (topic, channel) pair with no
registered consumer returns an error and leaves the consumer map
unchanged, unlike the Data-Source Manager's remove, which returns nil. -/
theorem removeConsumer_missing_is_error (m : List (String × Nat)) (topic channel : String)
    (h : lookupA m (consumerKey topic channel) = none) :
    (removeConsumerM m topic channel).1 = m
    ∧ (removeConsumerM m topic channel).2.isSome = true
    ∧ (∀ (dsm : DSManagerM) (name : String), (removeDataSource dsm name).2 = none) := by
  refine ⟨?_, ?_, fun dsm name => rfl⟩
  · simp [removeConsumerM, h]
  · simp [removeConsumerM, h]

/-- Witness for C10 at a concrete map and key. -/
theorem removeConsumer_missing_is_error_witness :
    lookupA [("a:b", 1)] (consumerKey "x" "y") = none
    ∧ (removeConsumerM [("a:b", 1)] "x" "y").1 = [("a:b", 1)]
    ∧ (removeConsumerM [("a:b", 1)] "x" "y").2.isSome = true := by
  have h : lookupA [("a:b", 1)] (consumerKey "x" "y") = none := by decide
  have r := removeConsumer_missing_is_error [("a:b", 1)] "x" "y" h
  exact ⟨h, r.1, r.2.1⟩

/-- C7 counterexample: a delivered message with empty body is not a valid
JSON object, yet parseMessage leaves data empty instead of storing
\x7braw: ""\x7d. -/
theorem parseMessage_empty_body :
    (parseMessage (fun _ => none) "t" "c" "" 1 "m").data = []
    ∧ ([] : List (String × Val)) ≠ [("raw", Val.str "")] := by
  constructor
  · rfl
  · intro h
    exact List.noConfusion h

/-- C7 as amended: for every non-empty body on which the JSON decode
fails, parsing does not abort (parseMessage is total and the source
returns a nil error) and the resulting data is exactly
\x7braw: body\x7d. -/
theorem parseMessage_invalid_nonempty_raw
    (decode : String → Option (List (String × Val)))
    (topic channel body : String) (attempts : Nat) (msgId : String)
    (hne : body.length > 0) (hfail : decode body = none) :
    (parseMessage decode topic channel body attempts msgId).data
      = [("raw", Val.str body)]
    ∧ (parseMessage decode topic channel body attempts msgId).body = body := by
  constructor
  · simp [parseMessage, hne, hfail]
  · simp [parseMessage, hne, hfail]

/-- Witness for the amended C7 at a concrete non-JSON body. -/
theorem parseMessage_invalid_nonempty_raw_witness :
    ("hello").length > 0
    ∧ (parseMessage (fun _ => none) "t" "c" "hello" 1 "m").data
        = [("raw", Val.str "hello")] := by
  have hne : ("hello").length > 0 := by decide
  have r := parseMessage_invalid_nonempty_raw (fun _ => none) "t" "c" "hello" 1 "m" hne rfl
  exact ⟨hne, r.1⟩

/-- C2: the code's persistence is not an upsert.  mongo ReplaceOne without
the upsert option reports a zero-match replace as success, so the
InsertOne fallback (guarded on a returned error) never runs: persisting a
new instance writes no document at all, and persisting twice still leaves
zero documents, where the claim expects exactly one. -/
theorem saveWorkflowInstance_never_inserts :
    saveWorkflowInstance [] c2Inst = []
    ∧ saveWorkflowInstance (saveWorkflowInstance [] c2Inst) c2Inst = []
    ∧ (saveWorkflowInstance [] c2Inst).length ≠ 1
    ∧ saveWorkflowInstance [{ c2Inst with status := "old" }] c2Inst
        = [c2Inst] := by
  refine ⟨rfl, rfl, ?_, ?_⟩
  · intro h
    simp [saveWorkflowInstance, replaceOne] at h
  · simp [saveWorkflowInstance, replaceOne, c2Inst]

theorem lookupA_foldVars (l : List DAGVarM) (acc : List (String × VarVal)) (n : String) :
    lookupA (l.foldl (fun acc v => insertA acc v.name (VarVal.val v.defaultValue)) acc) n
      = match lastDefault l n with
        | some d => some (VarVal.val d)
        | none => lookupA acc n := by
  induction l generalizing acc with
  | nil => simp [lastDefault]
  | cons v vs ih =>
      simp only [List.foldl_cons, lastDefault]
      rw [ih]
      cases h : lastDefault vs n with
      | some d => simp
      | none =>
          simp only [lookupA_insertA]
          by_cases hv : v.name = n <;> simp [hv]

/-- C5 counterexample: with a dag variable itself named "nsq_message"
(default "x"), the binding after construction is the default value, not
the message — the code writes the message first and the defaults overlay
it, the reverse of the claimed order. -/
theorem buildWorkflowVars_default_overrides_message :
    lookupA (buildWorkflowVars c5Cfg (some c1Msg)) "nsq_message"
      = some (VarVal.val (Val.str "x"))
    ∧ VarVal.val (Val.str "x") ≠ VarVal.message c1Msg := by
  constructor
  · rfl
  · intro h
    exact VarVal.noConfusion h

/-- C5 as amended: instance.vars is seeded with vars["nsq_message"] :=
message first, and each dag.vars[i].default_value is then overlaid in
order; a name bound by dag vars resolves to the last such default, and
"nsq_message" resolves to the message only when no dag var carries that
name. -/
theorem buildWorkflowVars_spec (cfg : WorkflowConfigM) (msg : NSQMessageM) (n : String) :
    lookupA (buildWorkflowVars cfg (some msg)) n
      = match lastDefault cfg.dag.vars n with
        | some d => some (VarVal.val d)
        | none => if n = "nsq_message" then some (VarVal.message msg) else none := by
  unfold buildWorkflowVars
  rw [lookupA_foldVars]
  cases h : lastDefault cfg.dag.vars n with
  | some d => simp
  | none =>
      by_cases hn : n = "nsq_message"
      · simp [insertA, lookupA, hn]
      · have hn2 : ¬ ("nsq_message" = n) := fun e => hn e.symm
        simp [insertA, lookupA, hn, hn2]

/-- C1: the executor stores a successful task's output under
instance.results[task.id] (task A below), but never writes the shared
ActionContext, so the previous-output view a later task observes (task B
reports it as its own output) is still the empty registration-time map
rather than A's output: the propagation half of the claim does not hold
in the code. -/
theorem executeTasks_stale_previous_output :
    c1Final.status = "completed"
    ∧ lookupA c1Final.results "A" = some (Val.obj [("x", Val.str "6")])
    ∧ lookupA c1Final.results "B" = some (Val.obj [])
    ∧ Val.obj [] ≠ Val.obj [("x", Val.str "6")] := by
  refine ⟨rfl, rfl, rfl, ?_⟩
  intro h
  injection h with h2
  exact List.noConfusion h2

theorem retryGo_invocations_pos (run : Nat → Option Val) (interval i k : Nat) :
    1 ≤ (retryGo run interval i k).invocations := by
  cases k with
  | zero => simp [retryGo]
  | succ k =>
      simp only [retryGo]
      cases run i with
      | some v => simp
      | none => simp

theorem retryGo_invocations_le (run : Nat → Option Val) (interval : Nat) :
    ∀ (k i : Nat), (retryGo run interval i k).invocations ≤ k + 1 := by
  intro k
  induction k with
  | zero => intro i; simp [retryGo]
  | succ k ih =>
      intro i
      simp only [retryGo]
      cases run i with
      | some v => simp
      | none =>
          simp only
          have := ih (i + 1)
          omega

theorem retryGo_all_fail (run : Nat → Option Val) (interval : Nat) :
    ∀ (k i : Nat), (∀ j, j ≤ k → run (i + j) = none) →
      retryGo run interval i k
        = { invocations := k + 1, sleeps := List.replicate k interval, result := none } := by
  intro k
  induction k with
  | zero =>
      intro i h
      have h0 : run i = none := by simpa using h 0 (Nat.le_refl 0)
      simp [retryGo, h0]
  | succ k ih =>
      intro i h
      have h0 : run i = none := by simpa using h 0 (Nat.zero_le _)
      have hrest : ∀ j, j ≤ k → run (i + 1 + j) = none := by
        intro j hj
        have := h (j + 1) (by omega)
        simpa [show i + (j + 1) = i + 1 + j by omega] using this
      simp only [retryGo, h0]
      rw [ih (i + 1) hrest]
      simp [List.replicate_succ]

theorem retryGo_first_success (run : Nat → Option Val) (interval : Nat) :
    ∀ (k i j : Nat) (v : Val), j ≤ k → (∀ l, l < j → run (i + l) = none) →
      run (i + j) = some v →
      retryGo run interval i k
        = { invocations := j + 1, sleeps := List.replicate j interval,
            result := some v } := by
  intro k
  induction k with
  | zero =>
      intro i j v hj _ hsucc
      have hj0 : j = 0 := by omega
      subst hj0
      simp only [Nat.add_zero] at hsucc
      simp [retryGo, hsucc]
  | succ k ih =>
      intro i j v hj hl hsucc
      cases j with
      | zero =>
          simp only [Nat.add_zero] at hsucc
          simp [retryGo, hsucc]
      | succ j =>
          have h0 : run i = none := by simpa using hl 0 (Nat.succ_pos j)
          have hl2 : ∀ l, l < j → run (i + 1 + l) = none := by
            intro l hlj
            have := hl (l + 1) (by omega)
            simpa [show i + (l + 1) = i + 1 + l by omega] using this
          have hsucc2 : run (i + 1 + j) = some v := by
            simpa [show i + (j + 1) = i + 1 + j by omega] using hsucc
          simp only [retryGo, h0]
          rw [ih (i + 1) j v (by omega) hl2 hsucc2]
          simp [List.replicate_succ]

theorem retryGo_sleeps_replicate (run : Nat → Option Val) (interval : Nat) :
    ∀ (k i : Nat), (retryGo run interval i k).sleeps
      = List.replicate ((retryGo run interval i k).invocations - 1) interval := by
  intro k
  induction k with
  | zero => intro i; simp [retryGo]
  | succ k ih =>
      intro i
      simp only [retryGo]
      cases run i with
      | some v => simp
      | none =>
          simp only
          have hpos := retryGo_invocations_pos run interval (i + 1) k
          rw [ih (i + 1)]
          rw [show (retryGo run interval (i + 1) k).invocations + 1 - 1
                = ((retryGo run interval (i + 1) k).invocations - 1) + 1 by omega]
          simp [List.replicate_succ]

/-- C3: for a task whose retry is enabled with max_times = N, the action
is invoked at most N+1 times; exactly N+1 times with a failing result
when every attempt fails; invocation stops at the first success (j
preceding failures give j+1 invocations); and the executor sleeps
retry.interval exactly once between each pair of consecutive attempts
(the sleep trace is invocations - 1 copies of the interval). -/
theorem task_retry_policy (tc : TaskConfigM) (run : Nat → Option Val)
    (henabled : tc.retry.enabled = true) :
    (runTaskWithRetry run (buildTask tc).retry).invocations ≤ tc.retry.maxTimes + 1
    ∧ ((∀ i, i ≤ tc.retry.maxTimes → run i = none) →
        runTaskWithRetry run (buildTask tc).retry
          = { invocations := tc.retry.maxTimes + 1,
              sleeps := List.replicate tc.retry.maxTimes tc.retry.interval,
              result := none })
    ∧ (∀ j v, j ≤ tc.retry.maxTimes → (∀ l, l < j → run l = none) →
        run j = some v →
        runTaskWithRetry run (buildTask tc).retry
          = { invocations := j + 1, sleeps := List.replicate j tc.retry.interval,
              result := some v })
    ∧ (runTaskWithRetry run (buildTask tc).retry).sleeps
        = List.replicate
            ((runTaskWithRetry run (buildTask tc).retry).invocations - 1)
            tc.retry.interval := by
  have hb : (buildTask tc).retry
      = some { maxTimes := tc.retry.maxTimes, interval := tc.retry.interval } := by
    simp [buildTask, henabled]
  rw [hb]
  simp only [runTaskWithRetry]
  refine ⟨retryGo_invocations_le run tc.retry.interval tc.retry.maxTimes 0, ?_, ?_,
    retryGo_sleeps_replicate run tc.retry.interval tc.retry.maxTimes 0⟩
  · intro h
    exact retryGo_all_fail run tc.retry.interval tc.retry.maxTimes 0
      (fun j hj => by simpa using h j hj)
  · intro j v hj hl hsucc
    exact retryGo_first_success run tc.retry.interval tc.retry.maxTimes 0 j v hj
      (fun l hlj => by simpa using hl l hlj) (by simpa using hsucc)

/-- Witness for C3: retry enabled with max_times = 2, interval = 5; the
run fails once then succeeds, giving 2 invocations and one 5-second
sleep. -/
theorem task_retry_policy_witness :
    ({ enabled := true, maxTimes := 2, interval := 5 } : MRetryConfig).enabled = true
    ∧ runTaskWithRetry (fun i => if i = 1 then some (Val.str "ok") else none)
        (buildTask
          { taskId := "t", name := "t", actionName := "a", dependOn := [],
            params := [],
            retry := { enabled := true, maxTimes := 2, interval := 5 },
            timeout := 0 }).retry
        = { invocations := 2, sleeps := [5], result := some (Val.str "ok") } := by
  have h := task_retry_policy
    { taskId := "t", name := "t", actionName := "a", dependOn := [], params := [],
      retry := { enabled := true, maxTimes := 2, interval := 5 }, timeout := 0 }
    (fun i => if i = 1 then some (Val.str "ok") else none) rfl
  refine ⟨rfl, ?_⟩
  obtain ⟨-, -, hfs, -⟩ := h
  have h3 := hfs 1 (Val.str "ok") (by decide)
    (fun l hl => by
      have hl0 : l = 0 := by omega
      subst hl0
      rfl)
    rfl
  simpa using h3

/-- C6 counterexample: in the retry-exhaustion scenario (retry enabled,
max_times = 2, all three attempts fail) the bus handler returns nil, not
an error: Execute spawns the task run detached and returns before any
attempt, so task failure cannot reach the bus. -/
theorem retry_exhaustion_handler_returns_nil :
    c6Outcome.busError = none
    ∧ c6Outcome.finalInstance.map (fun i => i.status) = some "failed"
    ∧ c6Outcome.finalInstance.map (fun i => lookupA i.results "t1") = some none
    ∧ (none : Option String).isSome = false := by
  exact ⟨rfl, rfl, rfl, rfl⟩

/-- C6 as amended: for a workflow whose single task has retry enabled and
an action that fails on every attempt, the detached run ends with
status = "failed" and no results entry for the failing task id, while the
bus handler returns nil (no provider-side redelivery is triggered by the
task failure; execution is detached). -/
theorem retry_exhaustion_outcome
    (registry : List (String × ActionBehavior)) (b : ActionBehavior)
    (instanceId topic channel body msgId : String) (attempts : Nat)
    (decode : String → Option (List (String × Val)))
    (cfg : WorkflowConfigM) (tc : TaskConfigM)
    (htasks : cfg.dag.tasks = [tc])
    (hreg : lookupA registry tc.actionName = some b)
    (hfail : ∀ actx p i, b actx p i = none)
    (henabled : tc.retry.enabled = true) :
    (handleMessage registry instanceId (some cfg) decode topic channel body
        attempts msgId).busError = none
    ∧ (handleMessage registry instanceId (some cfg) decode topic channel body
        attempts msgId).finalInstance.map (fun i => i.status) = some "failed"
    ∧ (handleMessage registry instanceId (some cfg) decode topic channel body
        attempts msgId).finalInstance.map (fun i => lookupA i.results tc.taskId)
        = some none := by
  have hb : (buildTask tc).retry
      = some { maxTimes := tc.retry.maxTimes, interval := tc.retry.interval } := by
    simp [buildTask, henabled]
  have htrace : ∀ actx : ActionContextM,
      (runTaskWithRetry (fun i => b actx (buildTask tc).params i)
        (buildTask tc).retry).result = none := by
    intro actx
    rw [hb]
    simp only [runTaskWithRetry]
    rw [retryGo_all_fail (fun i => b actx (buildTask tc).params i) tc.retry.interval
      tc.retry.maxTimes 0 (fun j _ => hfail actx (buildTask tc).params (0 + j))]
  have hexec : ∀ inst : WorkflowInstanceM,
      executeTask registry initialActionContext (buildTask tc) inst
        = Except.error ("task " ++ (buildTask tc).taskId ++ " execution failed") := by
    intro inst
    simp only [executeTask]
    rw [show (buildTask tc).actionName = tc.actionName from rfl, hreg]
    simp only [htrace initialActionContext]
  simp only [handleMessage, ExecuteM, buildTasks, htasks, List.map_cons, List.map_nil]
  simp only [executeTasks, hexec]
  simp [lookupA]

/-- Witness for the amended C6 at the concrete exhaustion scenario. -/
theorem retry_exhaustion_outcome_witness :
    c6Cfg.dag.tasks = [c6Task]
    ∧ lookupA c6Registry c6Task.actionName = some failBehavior
    ∧ c6Task.retry.enabled = true
    ∧ (handleMessage c6Registry "i" (some c6Cfg) (fun _ => none) "t" "c" "x" 1
        "m").busError = none
    ∧ (handleMessage c6Registry "i" (some c6Cfg) (fun _ => none) "t" "c" "x" 1
        "m").finalInstance.map (fun i => i.status) = some "failed" := by
  have r := retry_exhaustion_outcome c6Registry failBehavior "i" "t" "c" "x" "m" 1
    (fun _ => none) c6Cfg c6Task rfl rfl (fun _ _ _ => rfl) rfl
  exact ⟨rfl, rfl, rfl, r.1, r.2.1⟩

theorem eraseA_insertA_fresh {α : Type} (l : List (String × α)) (k : String) (v : α)
    (h : lookupA l k = none) : eraseA (insertA l k v) k = l := by
  rw [insertA_of_lookupA_none l k v h, eraseA_append, eraseA_of_lookupA_none l k h,
    eraseA_singleton_self, List.append_nil]

/-- C9 counterexample: when a data source named "a" is already
registered, add(ds named "a") followed by remove("a") does not restore
the prior state — the pre-existing pool entry is gone. -/
theorem add_remove_existing_name_not_restored :
    ((removeDataSource (addDataSource c9Mgr { c9Ds with host := "h2" }
        (some 2)).1 "a").1).sqlDBs = []
    ∧ c9Mgr.sqlDBs = [("a", 1)]
    ∧ ([] : List (String × Nat)) ≠ [("a", 1)] := by
  refine ⟨rfl, rfl, ?_⟩
  intro h
  exact List.noConfusion h

/-- C9 as amended: provided no data source under ds.name is already
registered (in any of the three maps), add(ds); remove(ds.name) restores
the manager's prior state for every pool outcome and type; and a
remove(name) with no matching name is a no-op returning nil. -/
theorem add_remove_fresh_roundtrip (m : DSManagerM) (ds : DataSourceM)
    (pool : Option Nat)
    (h1 : lookupA m.sqlDBs ds.name = none)
    (h2 : lookupA m.mongoDBs ds.name = none)
    (h3 : lookupA m.dataSources ds.name = none) :
    (removeDataSource (addDataSource m ds pool).1 ds.name).1 = m
    ∧ (∀ name, lookupA m.sqlDBs name = none → lookupA m.mongoDBs name = none →
        lookupA m.dataSources name = none → removeDataSource m name = (m, none)) := by
  have e1 := eraseA_of_lookupA_none m.sqlDBs ds.name h1
  have e2 := eraseA_of_lookupA_none m.mongoDBs ds.name h2
  have f1 : ∀ v : Nat, eraseA (insertA m.sqlDBs ds.name v) ds.name = m.sqlDBs :=
    fun v => eraseA_insertA_fresh m.sqlDBs ds.name v h1
  have f2 : ∀ v : Nat, eraseA (insertA m.mongoDBs ds.name v) ds.name = m.mongoDBs :=
    fun v => eraseA_insertA_fresh m.mongoDBs ds.name v h2
  have f3 : eraseA (insertA m.dataSources ds.name ds) ds.name = m.dataSources :=
    eraseA_insertA_fresh m.dataSources ds.name ds h3
  constructor
  · by_cases hsql : ds.dsType = "mysql" ∨ ds.dsType = "postgresql" ∨
        ds.dsType = "sqlserver" ∨ ds.dsType = "oracle"
    · cases pool with
      | none =>
          simp [addDataSource, hsql, createSQLConnection, removeDataSource,
            e1, e2, f3]
      | some p =>
          simp [addDataSource, hsql, createSQLConnection, removeDataSource,
            e2, f1, f3]
    · by_cases hmg : ds.dsType = "mongodb"
      · cases pool with
        | none =>
            simp [addDataSource, hsql, hmg, createMongoConnection,
              removeDataSource, e1, e2, f3]
        | some p =>
            simp [addDataSource, hsql, hmg, createMongoConnection,
              removeDataSource, e1, f2, f3]
      · simp [addDataSource, hsql, hmg, removeDataSource, e1, e2, f3]
  · intro name hn1 hn2 hn3
    simp [removeDataSource, eraseA_of_lookupA_none _ _ hn1,
      eraseA_of_lookupA_none _ _ hn2, eraseA_of_lookupA_none _ _ hn3]

/-- Witness for the amended C9: fresh add then remove on the empty
manager restores the empty manager. -/
theorem add_remove_fresh_roundtrip_witness :
    lookupA (DSManagerM.mk [] [] []).sqlDBs c9Ds.name = none
    ∧ (removeDataSource (addDataSource (DSManagerM.mk [] [] []) c9Ds
        (some 2)).1 c9Ds.name).1 = DSManagerM.mk [] [] [] := by
  have r := add_remove_fresh_roundtrip (DSManagerM.mk [] [] []) c9Ds (some 2)
    rfl rfl rfl
  exact ⟨rfl, r.1⟩

theorem mem_requiredConsumerKeys (cfgs : List WorkflowConfigM) (k : String) :
    k ∈ requiredConsumerKeys cfgs
      ↔ ∃ c ∈ cfgs, c.enabled = true ∧ consumerKey c.topic c.channel = k := by
  simp only [requiredConsumerKeys, List.mem_filterMap]
  constructor
  · rintro ⟨c, hc, hf⟩
    by_cases he : c.enabled = true
    · exact ⟨c, hc, he, by simpa [he] using hf⟩
    · simp [he] at hf
  · rintro ⟨c, hc, he, hk⟩
    exact ⟨c, hc, by simp [he, hk]⟩

theorem lookupA_filter_contains_pos (m : List (String × Nat)) (req : List String)
    (k : String) (h : req.contains k = true) :
    lookupA (m.filter (fun kv => req.contains kv.1)) k = lookupA m k := by
  induction m with
  | nil => rfl
  | cons kv rest ih =>
      cases hc : req.contains kv.1 with
      | true =>
          rw [List.filter_cons, if_pos hc]
          by_cases hk : kv.1 = k
          · simp only [lookupA, if_pos hk]
          · simp only [lookupA, if_neg hk]
            exact ih
      | false =>
          have hk : kv.1 ≠ k := fun e => by rw [e, h] at hc; cases hc
          rw [List.filter_cons,
            if_neg (fun e => by rw [e] at hc; exact Bool.noConfusion hc)]
          rw [show lookupA (kv :: rest) k = lookupA rest k from by
            simp [lookupA, hk]]
          exact ih

theorem lookupA_filter_contains_neg (m : List (String × Nat)) (req : List String)
    (k : String) (h : req.contains k = false) :
    lookupA (m.filter (fun kv => req.contains kv.1)) k = none := by
  induction m with
  | nil => rfl
  | cons kv rest ih =>
      cases hc : req.contains kv.1 with
      | true =>
          have hk : kv.1 ≠ k := fun e => by rw [e, h] at hc; cases hc
          rw [List.filter_cons, if_pos hc]
          simp only [lookupA, if_neg hk]
          exact ih
      | false =>
          rw [List.filter_cons,
            if_neg (fun e => by rw [e] at hc; exact Bool.noConfusion hc)]
          exact ih

theorem lookupA_reloadFold_preserve (tok : Nat) (cfgs : List WorkflowConfigM) :
    ∀ (acc : List (String × Nat)) (k : String) (v : Nat),
      lookupA acc k = some v →
      lookupA (cfgs.foldl (reloadAddStep tok) acc) k = some v := by
  induction cfgs with
  | nil => intro acc k v h; simpa using h
  | cons c rest ih =>
      intro acc k v h
      simp only [List.foldl_cons]
      apply ih
      unfold reloadAddStep
      by_cases he : c.enabled = true
      · cases hl : lookupA acc (consumerKey c.topic c.channel) with
        | some w => simpa [he, hl] using h
        | none =>
            simp only [he, if_true, hl, addConsumerM]
            exact lookupA_append_left acc _ k v h
      · simpa [he] using h

theorem lookupA_reloadAddStep_isSome (tok : Nat) (acc : List (String × Nat))
    (c : WorkflowConfigM) (k : String) :
    (lookupA (reloadAddStep tok acc c) k).isSome = true
      ↔ (lookupA acc k).isSome = true
        ∨ (c.enabled = true ∧ consumerKey c.topic c.channel = k) := by
  by_cases he : c.enabled = true
  · cases hl : lookupA acc (consumerKey c.topic c.channel) with
    | some v =>
        simp only [reloadAddStep, he, if_true, hl]
        constructor
        · exact fun h => Or.inl h
        · rintro (h | ⟨-, hk⟩)
          · exact h
          · rw [← hk, hl]; rfl
    | none =>
        simp only [reloadAddStep, he, if_true, hl, addConsumerM]
        by_cases hk : consumerKey c.topic c.channel = k
        · cases hacc : lookupA acc k with
          | some v =>
              rw [lookupA_append_left acc _ k v hacc]
              simp [he, hk]
          | none =>
              rw [lookupA_append_right acc _ k hacc]
              simp [lookupA, hk, he]
        · cases hacc : lookupA acc k with
          | some v =>
              rw [lookupA_append_left acc _ k v hacc]
              simp [hacc, he, hk]
          | none =>
              rw [lookupA_append_right acc _ k hacc]
              simp [lookupA, hacc, he, hk]
  · simp only [reloadAddStep, he, if_false]
    have he2 : c.enabled = false := by
      cases h : c.enabled
      · rfl
      · exact absurd h he
    simp [he2]

theorem lookupA_reloadFold_isSome (tok : Nat) (cfgs : List WorkflowConfigM) :
    ∀ (acc : List (String × Nat)) (k : String),
      (lookupA (cfgs.foldl (reloadAddStep tok) acc) k).isSome = true
        ↔ (lookupA acc k).isSome = true
          ∨ ∃ c ∈ cfgs, c.enabled = true ∧ consumerKey c.topic c.channel = k := by
  induction cfgs with
  | nil => intro acc k; simp
  | cons c rest ih =>
      intro acc k
      simp only [List.foldl_cons]
      rw [ih, lookupA_reloadAddStep_isSome]
      constructor
      · rintro ((h | hck) | hex)
        · exact Or.inl h
        · exact Or.inr ⟨c, List.mem_cons_self c rest, hck⟩
        · obtain ⟨d, hd, he, hk⟩ := hex
          exact Or.inr ⟨d, List.mem_cons_of_mem c hd, he, hk⟩
      · rintro (h | ⟨d, hd, he, hk⟩)
        · exact Or.inl (Or.inl h)
        · rcases List.mem_cons.mp hd with rfl | hd2
          · exact Or.inl (Or.inr ⟨he, hk⟩)
          · exact Or.inr ⟨d, hd2, he, hk⟩

/-- C4: after ReloadConsumers(W) the consumer key set is exactly the set
of "topic:channel" keys of the enabled configs in W (stale consumers are
torn down, missing required ones are added), and a consumer already
present under a required key keeps its handle untouched. -/
theorem reloadConsumers_keyset (m : List (String × Nat)) (cfgs : List WorkflowConfigM)
    (tok : Nat) :
    (∀ k, (lookupA (reloadConsumers m cfgs tok) k).isSome = true
        ↔ ∃ c ∈ cfgs, c.enabled = true ∧ consumerKey c.topic c.channel = k)
    ∧ (∀ k v, k ∈ requiredConsumerKeys cfgs → lookupA m k = some v →
        lookupA (reloadConsumers m cfgs tok) k = some v) := by
  have hre : reloadConsumers m cfgs tok
      = cfgs.foldl (reloadAddStep tok)
          (m.filter (fun kv => (requiredConsumerKeys cfgs).contains kv.1)) := rfl
  constructor
  · intro k
    rw [hre, lookupA_reloadFold_isSome]
    constructor
    · rintro (hkept | hex)
      · cases hc : (requiredConsumerKeys cfgs).contains k with
        | false =>
            rw [lookupA_filter_contains_neg m _ k hc] at hkept
            simp at hkept
        | true =>
            have hmem : k ∈ requiredConsumerKeys cfgs := by simpa using hc
            exact (mem_requiredConsumerKeys cfgs k).mp hmem
      · exact hex
    · intro hex
      exact Or.inr hex
  · intro k v hmem hlook
    rw [hre]
    apply lookupA_reloadFold_preserve
    have hc : (requiredConsumerKeys cfgs).contains k = true := by simpa using hmem
    rw [lookupA_filter_contains_pos m _ k hc, hlook]

/-- Witness for C4: the reload scenario of the spec — consumers for
t1:c1 and t2:c2, reload with t1:c1 enabled, t2:c2 disabled, t3:c3
enabled; the resulting key set is exactly t1:c1 and t3:c3, and the
t1:c1 handle is untouched. -/
theorem reloadConsumers_keyset_witness :
    (lookupA (reloadConsumers [("t1:c1", 1), ("t2:c2", 2)]
        [{ workflowId := "w1", name := "w1", topic := "t1", channel := "c1",
           enabled := true,
           dag := { dagId := "d", name := "d", vars := [], tasks := [] } },
         { workflowId := "w2", name := "w2", topic := "t2", channel := "c2",
           enabled := false,
           dag := { dagId := "d", name := "d", vars := [], tasks := [] } },
         { workflowId := "w3", name := "w3", topic := "t3", channel := "c3",
           enabled := true,
           dag := { dagId := "d", name := "d", vars := [], tasks := [] } }] 9)
        "t1:c1" = some 1)
    ∧ ((lookupA (reloadConsumers [("t1:c1", 1), ("t2:c2", 2)]
        [{ workflowId := "w1", name := "w1", topic := "t1", channel := "c1",
           enabled := true,
           dag := { dagId := "d", name := "d", vars := [], tasks := [] } },
         { workflowId := "w2", name := "w2", topic := "t2", channel := "c2",
           enabled := false,
           dag := { dagId := "d", name := "d", vars := [], tasks := [] } },
         { workflowId := "w3", name := "w3", topic := "t3", channel := "c3",
           enabled := true,
           dag := { dagId := "d", name := "d", vars := [], tasks := [] } }] 9)
        "t2:c2").isSome = false) := by
  have r := reloadConsumers_keyset [("t1:c1", 1), ("t2:c2", 2)]
    [{ workflowId := "w1", name := "w1", topic := "t1", channel := "c1",
       enabled := true,
       dag := { dagId := "d", name := "d", vars := [], tasks := [] } },
     { workflowId := "w2", name := "w2", topic := "t2", channel := "c2",
       enabled := false,
       dag := { dagId := "d", name := "d", vars := [], tasks := [] } },
     { workflowId := "w3", name := "w3", topic := "t3", channel := "c3",
       enabled := true,
       dag := { dagId := "d", name := "d", vars := [], tasks := [] } }] 9
  refine ⟨r.2 "t1:c1" 1 (by decide) rfl, ?_⟩
  cases hs : (lookupA (reloadConsumers [("t1:c1", 1), ("t2:c2", 2)]
      [{ workflowId := "w1", name := "w1", topic := "t1", channel := "c1",
         enabled := true,
         dag := { dagId := "d", name := "d", vars := [], tasks := [] } },
       { workflowId := "w2", name := "w2", topic := "t2", channel := "c2",
         enabled := false,
         dag := { dagId := "d", name := "d", vars := [], tasks := [] } },
       { workflowId := "w3", name := "w3", topic := "t3", channel := "c3",
         enabled := true,
         dag := { dagId := "d", name := "d", vars := [], tasks := [] } }] 9)
      "t2:c2").isSome with
  | false => rfl
  | true =>
      have hex := (r.1 "t2:c2").mp hs
      exact absurd hex (by decide)

theorem leadsWith_refl (s : List Char) : leadsWith s s = true := by
  induction s with
  | nil => rfl
  | cons c cs ih => simp [leadsWith, ih]

theorem leadsWith_trans (a b c : List Char) (h1 : leadsWith a b = true)
    (h2 : leadsWith b c = true) : leadsWith a c = true := by
  induction a generalizing b c with
  | nil => rfl
  | cons x xs ih =>
      cases b with
      | nil => simp [leadsWith] at h1
      | cons y ys =>
          cases c with
          | nil => simp [leadsWith] at h2
          | cons z zs =>
              simp only [leadsWith, Bool.and_eq_true, beq_iff_eq] at h1 h2 ⊢
              exact ⟨h1.1.trans h2.1, ih ys zs h1.2 h2.2⟩

theorem leadsWith_append_drop (pat : List Char) :
    ∀ s : List Char, leadsWith pat s = true →
      pat ++ List.drop pat.length s = s := by
  induction pat with
  | nil => intro s _; simp
  | cons p ps ih =>
      intro s h
      cases s with
      | nil => simp [leadsWith] at h
      | cons c cs =>
          simp only [leadsWith, Bool.and_eq_true, beq_iff_eq] at h
          simp only [List.length_cons, List.cons_append, List.drop_succ_cons]
          rw [h.1, ih cs h.2]

theorem splitOnGo_ne_nil (pat : List Char) (fuel : Nat) (s : List Char) :
    splitOnGo pat fuel s ≠ [] := by
  cases fuel with
  | zero => simp [splitOnGo]
  | succ fuel =>
      cases s with
      | nil => simp [splitOnGo]
      | cons c rest =>
          simp only [splitOnGo]
          split
          · simp
          · split <;> simp

theorem splitOnGo_cons_of_ne (pat : List Char) (fuel : Nat) (c : Char)
    (rest p : List Char) (ps : List (List Char))
    (h : ¬(leadsWith pat (c :: rest) = true ∧ pat ≠ []))
    (hsp : splitOnGo pat fuel rest = p :: ps) :
    splitOnGo pat (fuel + 1) (c :: rest) = (c :: p) :: ps := by
  simp only [splitOnGo, if_neg h, hsp]

theorem joinSep_splitOnGo (pat : List Char) :
    ∀ (fuel : Nat) (s : List Char), s.length ≤ fuel →
      joinSep pat (splitOnGo pat fuel s) = s := by
  intro fuel
  induction fuel with
  | zero => intro s _; simp [splitOnGo, joinSep]
  | succ fuel ih =>
      intro s hs
      cases s with
      | nil => simp [splitOnGo, joinSep]
      | cons c rest =>
          by_cases h : leadsWith pat (c :: rest) = true ∧ pat ≠ []
          · simp only [splitOnGo, if_pos h]
            have hlen : 1 ≤ pat.length := by
              cases hp : pat with
              | nil => exact absurd hp h.2
              | cons q qs => simp
            have hd : (List.drop pat.length (c :: rest)).length ≤ fuel := by
              rw [List.length_drop]
              simp only [List.length_cons] at hs ⊢
              omega
            cases hsp : splitOnGo pat fuel (List.drop pat.length (c :: rest)) with
            | nil => exact absurd hsp (splitOnGo_ne_nil pat fuel _)
            | cons p ps =>
                simp only [joinSep, List.nil_append]
                rw [← hsp, ih _ hd]
                exact leadsWith_append_drop pat (c :: rest) h.1
          · have hlenr : rest.length ≤ fuel := by
              simp only [List.length_cons] at hs
              omega
            cases hsp : splitOnGo pat fuel rest with
            | nil => exact absurd hsp (splitOnGo_ne_nil pat fuel rest)
            | cons p ps =>
                rw [splitOnGo_cons_of_ne pat fuel c rest p ps h hsp]
                have hrest := ih rest hlenr
                rw [hsp] at hrest
                cases ps with
                | nil =>
                    simp only [joinSep] at hrest ⊢
                    rw [hrest]
                | cons q qs =>
                    simp only [joinSep] at hrest ⊢
                    rw [List.cons_append, List.cons_append, hrest]

theorem replaceAllGo_joinSep (pat rep : List Char) :
    ∀ (fuel : Nat) (s : List Char), s.length ≤ fuel →
      replaceAllGo pat rep fuel s = joinSep rep (splitOnGo pat fuel s) := by
  intro fuel
  induction fuel with
  | zero => intro s _; simp [replaceAllGo, splitOnGo, joinSep]
  | succ fuel ih =>
      intro s hs
      cases s with
      | nil => simp [replaceAllGo, splitOnGo, joinSep]
      | cons c rest =>
          by_cases h : leadsWith pat (c :: rest) = true ∧ pat ≠ []
          · simp only [replaceAllGo, splitOnGo, if_pos h]
            have hlen : 1 ≤ pat.length := by
              cases hp : pat with
              | nil => exact absurd hp h.2
              | cons q qs => simp
            have hd : (List.drop pat.length (c :: rest)).length ≤ fuel := by
              rw [List.length_drop]
              simp only [List.length_cons] at hs ⊢
              omega
            cases hsp : splitOnGo pat fuel (List.drop pat.length (c :: rest)) with
            | nil => exact absurd hsp (splitOnGo_ne_nil pat fuel _)
            | cons p ps =>
                simp only [joinSep, List.nil_append]
                rw [← hsp, ih _ hd]
          · have hlenr : rest.length ≤ fuel := by
              simp only [List.length_cons] at hs
              omega
            cases hsp : splitOnGo pat fuel rest with
            | nil => exact absurd hsp (splitOnGo_ne_nil pat fuel rest)
            | cons p ps =>
                rw [splitOnGo_cons_of_ne pat fuel c rest p ps h hsp]
                simp only [replaceAllGo, if_neg h]
                rw [ih rest hlenr, hsp]
                cases ps with
                | nil => simp [joinSep]
                | cons q qs =>
                    simp only [joinSep]
                    rw [List.cons_append, List.cons_append]

theorem splitOnGo_head_leadsWith (pat : List Char) :
    ∀ (fuel : Nat) (s : List Char),
      ∃ p ps, splitOnGo pat fuel s = p :: ps ∧ leadsWith p s = true := by
  intro fuel
  induction fuel with
  | zero => intro s; exact ⟨s, [], rfl, leadsWith_refl s⟩
  | succ fuel ih =>
      intro s
      cases s with
      | nil => exact ⟨[], [], rfl, rfl⟩
      | cons c rest =>
          by_cases h : leadsWith pat (c :: rest) = true ∧ pat ≠ []
          · exact ⟨[], splitOnGo pat fuel (List.drop pat.length (c :: rest)),
              by simp [splitOnGo, h], rfl⟩
          · obtain ⟨p, ps, hsp, hpre⟩ := ih rest
            exact ⟨c :: p, ps, splitOnGo_cons_of_ne pat fuel c rest p ps h hsp,
              by simp [leadsWith, hpre]⟩

theorem splitOnGo_no_occurrence (pat : List Char) (hpat : pat ≠ []) :
    ∀ (fuel : Nat) (s : List Char), s.length ≤ fuel →
      ∀ p ∈ splitOnGo pat fuel s, containsSubL pat p = false := by
  intro fuel
  induction fuel with
  | zero =>
      intro s hs p hp
      have hs0 : s = [] := by
        cases s with
        | nil => rfl
        | cons c cs => simp at hs
      subst hs0
      simp only [splitOnGo, List.mem_singleton] at hp
      subst hp
      simp [containsSubL, List.isEmpty_iff, hpat]
  | succ fuel ih =>
      intro s hs p hp
      cases s with
      | nil =>
          simp only [splitOnGo, List.mem_singleton] at hp
          subst hp
          simp [containsSubL, List.isEmpty_iff, hpat]
      | cons c rest =>
          have hlenr : rest.length ≤ fuel := by
            simp only [List.length_cons] at hs
            omega
          by_cases h : leadsWith pat (c :: rest) = true ∧ pat ≠ []
          · have hlen : 1 ≤ pat.length := by
              cases hq : pat with
              | nil => exact absurd hq hpat
              | cons q qs => simp
            have hd : (List.drop pat.length (c :: rest)).length ≤ fuel := by
              rw [List.length_drop]
              simp only [List.length_cons] at hs ⊢
              omega
            simp only [splitOnGo, if_pos h, List.mem_cons] at hp
            rcases hp with rfl | hp
            · simp [containsSubL, List.isEmpty_iff, hpat]
            · exact ih _ hd p hp
          · have hlw : leadsWith pat (c :: rest) = false := by
              cases hl : leadsWith pat (c :: rest) with
              | false => rfl
              | true => exact absurd ⟨hl, hpat⟩ h
            obtain ⟨q, qs, hsp, hpre⟩ := splitOnGo_head_leadsWith pat fuel rest
            rw [splitOnGo_cons_of_ne pat fuel c rest q qs h hsp] at hp
            rcases List.mem_cons.mp hp with rfl | hp2
            · have hq : containsSubL pat q = false :=
                ih rest hlenr q (by rw [hsp]; exact List.mem_cons_self q qs)
              have hlw2 : leadsWith pat (c :: q) = false := by
                cases hl2 : leadsWith pat (c :: q) with
                | false => rfl
                | true =>
                    have hcq : leadsWith (c :: q) (c :: rest) = true := by
                      simp [leadsWith, hpre]
                    have := leadsWith_trans pat (c :: q) (c :: rest) hl2 hcq
                    rw [this] at hlw
                    exact Bool.noConfusion hlw
              simp [containsSubL, hlw2, hq]
            · exact ih rest hlenr p (by rw [hsp]; exact List.mem_cons_of_mem q hp2)

theorem splitOnGo_of_not_contains (pat : List Char) :
    ∀ (fuel : Nat) (s : List Char), containsSubL pat s = false →
      splitOnGo pat fuel s = [s] := by
  intro fuel
  induction fuel with
  | zero => intro s _; rfl
  | succ fuel ih =>
      intro s hc
      cases s with
      | nil => rfl
      | cons c rest =>
          simp only [containsSubL, Bool.or_eq_false_iff] at hc
          have hcond : ¬(leadsWith pat (c :: rest) = true ∧ pat ≠ []) := by
            rintro ⟨h1, -⟩
            rw [hc.1] at h1
            exact Bool.noConfusion h1
          exact splitOnGo_cons_of_ne pat fuel c rest rest [] hcond (ih rest hc.2)

theorem replaceAllL_of_not_contains (pat rep s : List Char)
    (hc : containsSubL pat s = false) : replaceAllL pat rep s = s := by
  unfold replaceAllL
  rw [replaceAllGo_joinSep pat rep s.length s (Nat.le_refl _),
    splitOnGo_of_not_contains pat s.length s hc]
  rfl

theorem replaceAllS_of_not_contains (t pat rep : String)
    (hc : containsSubS t pat = false) : replaceAllS t pat rep = t := by
  unfold containsSubS at hc
  unfold replaceAllS
  rw [replaceAllL_of_not_contains pat.data rep.data t.data hc]

theorem replaceNsqStep_id (t : String) (kv : String × Val)
    (h : (match kv.2 with
          | Val.str _ => !(containsSubS t (nsqPlaceholder kv.1))
          | _ => true) = true) :
    replaceNsqStep t kv = t := by
  cases hv : kv.2 with
  | str s =>
      rw [hv] at h
      simp only [Bool.not_eq_true'] at h
      simp only [replaceNsqStep, hv]
      exact replaceAllS_of_not_contains t _ s h
  | vnull => simp [replaceNsqStep, hv]
  | vbool b => simp [replaceNsqStep, hv]
  | vint n => simp [replaceNsqStep, hv]
  | arr l => simp [replaceNsqStep, hv]
  | obj l => simp [replaceNsqStep, hv]

theorem replaceVarStep_id (t : String) (kv : String × VarVal)
    (h : (match kv.2 with
          | VarVal.val (Val.str _) => !(containsSubS t (varPlaceholder kv.1))
          | _ => true) = true) :
    replaceVarStep t kv = t := by
  cases hv : kv.2 with
  | message m => simp [replaceVarStep, hv]
  | val v =>
      cases hw : v with
      | str s =>
          rw [hv, hw] at h
          simp only [Bool.not_eq_true'] at h
          simp only [replaceVarStep, hv, hw]
          exact replaceAllS_of_not_contains t _ s h
      | vnull => simp [replaceVarStep, hv, hw]
      | vbool b => simp [replaceVarStep, hv, hw]
      | vint n => simp [replaceVarStep, hv, hw]
      | arr l => simp [replaceVarStep, hv, hw]
      | obj l => simp [replaceVarStep, hv, hw]

theorem replaceOutStep_id (t : String) (kv : String × Val)
    (h : (match kv.2 with
          | Val.str _ => !(containsSubS t (outPlaceholder kv.1))
          | _ => true) = true) :
    replaceOutStep t kv = t := by
  cases hv : kv.2 with
  | str s =>
      rw [hv] at h
      simp only [Bool.not_eq_true'] at h
      simp only [replaceOutStep, hv]
      exact replaceAllS_of_not_contains t _ s h
  | vnull => simp [replaceOutStep, hv]
  | vbool b => simp [replaceOutStep, hv]
  | vint n => simp [replaceOutStep, hv]
  | arr l => simp [replaceOutStep, hv]
  | obj l => simp [replaceOutStep, hv]

theorem foldl_fixed {α : Type} (step : String → α → String) (t : String)
    (l : List α) (h : ∀ x ∈ l, step t x = t) : l.foldl step t = t := by
  induction l with
  | nil => rfl
  | cons x xs ih =>
      simp only [List.foldl_cons]
      rw [h x (List.mem_cons_self x xs)]
      exact ih (fun y hy => h y (List.mem_cons_of_mem x hy))

theorem replaceTemplateVars_id (actx : ActionContextM) (t : String)
    (habs : placeholdersAbsent actx t = true) :
    replaceTemplateVars actx t = t := by
  unfold placeholdersAbsent at habs
  simp only [Bool.and_eq_true] at habs
  obtain ⟨⟨h1, h2⟩, h3⟩ := habs
  have hdef : replaceTemplateVars actx t
      = actx.previousOutput.foldl replaceOutStep
          (actx.workflowVars.foldl replaceVarStep
            (match actx.nsqMessage with
             | none => t
             | some msg => msg.data.foldl replaceNsqStep t)) := rfl
  have e1 : (match actx.nsqMessage with
      | none => t
      | some msg => msg.data.foldl replaceNsqStep t) = t := by
    cases hm : actx.nsqMessage with
    | none => rfl
    | some msg =>
        rw [hm] at h1
        refine foldl_fixed replaceNsqStep t msg.data ?_
        intro kv hkv
        exact replaceNsqStep_id t kv (by simpa using List.all_eq_true.mp h1 kv hkv)
  have e2 : actx.workflowVars.foldl replaceVarStep t = t := by
    refine foldl_fixed replaceVarStep t actx.workflowVars ?_
    intro kv hkv
    exact replaceVarStep_id t kv (by simpa using List.all_eq_true.mp h2 kv hkv)
  have e3 : actx.previousOutput.foldl replaceOutStep t = t := by
    refine foldl_fixed replaceOutStep t actx.previousOutput ?_
    intro kv hkv
    exact replaceOutStep_id t kv (by simpa using List.all_eq_true.mp h3 kv hkv)
  rw [hdef, e1, e2, e3]

/-- C8: strings.ReplaceAll rewrites exactly the leftmost non-overlapping
occurrences of a (non-empty) placeholder — the input splits into
occurrence-free pieces joined by the pattern, and the output is the same
pieces joined by the replacement — and template expansion leaves a string
containing no placeholder bound to a text value unchanged: placeholders
with non-text values or missing keys stay as they are, and expanding an
already-expanded string with no remaining placeholders is the identity
(idempotence). -/
theorem template_expansion_spec (pat rep s : List Char) (actx : ActionContextM)
    (t : String) (hpat : pat ≠ []) (habs : placeholdersAbsent actx t = true) :
    joinSep pat (splitOnL pat s) = s
    ∧ replaceAllL pat rep s = joinSep rep (splitOnL pat s)
    ∧ (∀ p ∈ splitOnL pat s, containsSubL pat p = false)
    ∧ replaceTemplateVars actx t = t := by
  unfold splitOnL replaceAllL
  exact ⟨joinSep_splitOnGo pat s.length s (Nat.le_refl _),
    replaceAllGo_joinSep pat rep s.length s (Nat.le_refl _),
    splitOnGo_no_occurrence pat hpat s.length s (Nat.le_refl _),
    replaceTemplateVars_id actx t habs⟩

/-- Witness for C8: a concrete pattern and context — the non-text
message value and the absent placeholders leave "plain" unchanged, and
the split/join characterization holds on a concrete string. -/
theorem template_expansion_spec_witness :
    (['a', 'b'] : List Char) ≠ []
    ∧ placeholdersAbsent c8Actx "plain" = true
    ∧ joinSep ['a', 'b'] (splitOnL ['a', 'b'] ['z', 'a', 'b', 'w'])
        = ['z', 'a', 'b', 'w']
    ∧ replaceTemplateVars c8Actx "plain" = "plain" := by
  have r := template_expansion_spec ['a', 'b'] ['X'] ['z', 'a', 'b', 'w'] c8Actx
    "plain" (by decide) (by decide)
  exact ⟨by decide, by decide, r.1, r.2.2.2⟩
